import Mathlib

/-!
Verification of the declaration-normalization and deprecated-signature
resolution pipeline of `tools/autograd/gen_autograd.py`.

The Python code works on loosely-typed dict records; here each record is a
structure whose derived fields (the keys the enrichment loop adds) are
`Option`-valued: `none` models an absent dict key.  Python string operations
(`str.replace`, `str.split`, `str.join`, the one `re.match` call) are
embedded as executable functions on `String`/`List Char`; fallible dict and
list accesses return `Except PyErr`.
-/

/-- Python exceptions observable in this file. -/
inductive PyErr where
  | keyError (key : String)
  | indexError
  | valueError (msg : String)
deriving DecidableEq, Repr

/-- Python `s.split(sep)` for a one-character separator `sep`: splits on every
occurrence, keeping empty pieces (`"a  b".split(' ') == ['a', '', 'b']`,
`"".split(' ') == ['']`). -/
def splitChar (sep : Char) : List Char → List (List Char)
  | [] => [[]]
  | c :: cs =>
    match splitChar sep cs with
    | w :: ws => if c = sep then [] :: w :: ws else (c :: w) :: ws
    | [] => [[c]]

/-- Python `s.split(sep)` for a one-character separator, on `String`. -/
def pySplit1 (sep : Char) (s : String) : List String :=
  (splitChar sep s.toList).map String.mk

/-- Worker for `pySplit`: splits on the (non-empty) separator `sep`,
left-to-right, non-overlapping.  `fuel` only forces termination; with
`fuel ≥ s.length` it never runs out (each step consumes at least one
character). -/
def splitSubAux (sep : List Char) : Nat → List Char → List (List Char)
  | _, [] => [[]]
  | 0, s => [s]
  | fuel + 1, c :: cs =>
    if sep.isPrefixOf (c :: cs) then
      [] :: splitSubAux sep fuel ((c :: cs).drop sep.length)
    else
      match splitSubAux sep fuel cs with
      | w :: ws => (c :: w) :: ws
      | [] => [[c]]

/-- Python `s.split(sep)` for a non-empty multi-character separator (Python
raises ValueError on an empty separator; the guard branch is never used: the
file only splits on `"::"`). -/
def pySplit (s sep : String) : List String :=
  if sep.isEmpty then [s]
  else (splitSubAux sep.toList s.toList.length s.toList).map String.mk

/-- Worker for `pyReplace`: replaces every occurrence of the (non-empty)
pattern `pat` by `rep`, scanning left to right without rescanning the
replacement, exactly as Python `str.replace`.  `fuel` only forces
termination; with `fuel ≥ s.length` it never runs out. -/
def replaceAllAux (pat rep : List Char) : Nat → List Char → List Char
  | _, [] => []
  | 0, s => s
  | fuel + 1, c :: cs =>
    if pat.isPrefixOf (c :: cs) then
      rep ++ replaceAllAux pat rep fuel ((c :: cs).drop pat.length)
    else
      c :: replaceAllAux pat rep fuel cs

/-- Python `s.replace(pat, rep)` (the empty-pattern branch is never used: the
file only replaces non-empty patterns). -/
def pyReplace (s pat rep : String) : String :=
  if pat.isEmpty then s
  else String.mk (replaceAllAux pat.toList rep.toList s.toList.length s.toList)

/-- Whether `pat` occurs as a contiguous substring of `s`. -/
def hasSub (pat : List Char) : List Char → Bool
  | [] => pat.isEmpty
  | c :: cs => pat.isPrefixOf (c :: cs) || hasSub pat cs

/-- Python `sep.join(l)`. -/
def joinSep (sep : String) : List String → String
  | [] => ""
  | [a] => a
  | a :: rest => a ++ sep ++ joinSep sep rest

/-- The greedy group of `re.match(r'c10::optional<(.+)>', s)` restricted to
what stands after the literal head: the largest `k` such that `r.take k` is a
non-empty newline-free run and `r` has `'>'` at position `k` (Python `.`
matches any character except a newline; `re.match` only anchors the start, so
the match may cover a proper prefix of `r`). -/
def optGroupLen (r : List Char) : Option Nat :=
  (List.range r.length).foldl
    (fun acc k =>
      if 1 ≤ k ∧ r.getD k ' ' = '>' ∧ (r.take k).all (fun c => c != '\n') then some k
      else acc)
    none

/-- The group string of `re.match(r'c10::optional<(.+)>', s)`, `none` when the
pattern does not match at the start of `s`. -/
def optMatchGroup (s : String) : Option String :=
  let l := s.toList
  let head := "c10::optional<".toList
  if head.isPrefixOf l then
    match optGroupLen (l.drop head.length) with
    | some k => some (String.mk ((l.drop head.length).take k))
    | none => none
  else none

/-- The body of `get_simple_type` (gen_autograd.py lines 104-112) as a
function of the raw type string: strip `" &"` and `"const "`, rewrite
`"Generator *"` to `"Generator"`, then rewrite an optional wrapper
`c10::optional<T>` to `T?` via the greedy regex group. -/
def get_simple_type_str (t : String) : String :=
  let s1 := pyReplace t " &" ""
  let s2 := pyReplace s1 "const " ""
  let s3 := pyReplace s2 "Generator *" "Generator"
  match optMatchGroup s3 with
  | some g => g ++ "?"
  | none => s3

/-- An argument dict of a declaration.  `output`, `kwarg_only` and
`default` may be absent from the dict (the code reads `output` with
`.get('output', False)`); `simple_type` is absent until the enrichment loop
writes it. -/
structure Argument where
  name : String
  type : String
  dynamic_type : String
  output : Option Bool := none
  kwarg_only : Option Bool := none
  default : Option String := none
  simple_type : Option String := none
deriving DecidableEq, Repr

/-- A return dict of a declaration; `simple_type` is absent until the
enrichment loop writes it. -/
structure Ret where
  name : String := ""
  type : String
  dynamic_type : String := ""
  simple_type : Option String := none
deriving DecidableEq, Repr

/-- A declaration dict.  The first block of fields is what the schema loader
produces (an absent `overload_name` key and one holding `''` are both falsy in
Python and are both modelled by `""`); every `Option`-valued field below it is
a key absent from the raw dict until `load_aten_declarations` or
`load_deprecated_signatures` writes it. -/
structure Decl where
  name : String
  overload_name : String := ""
  inplace : Bool := false
  arguments : List Argument
  schema_order_arguments : List Argument := []
  returns : List Ret := []
  schema_string : String := ""
  deprecated : Option Bool := none
  formals : Option (List String) := none
  schema_order_formals : Option (List String) := none
  args : Option (List String) := none
  schema_order_args : Option (List String) := none
  api_name : Option String := none
  type_wrapper_name : Option String := none
  operator_name_with_overload : Option String := none
  unqual_operator_name_with_overload : Option String := none
  return_type : Option String := none
  base_name : Option String := none
  call_args : Option (List String) := none
deriving DecidableEq, Repr

/-- `format_return_type` (lines 94-101): `'void'` for no returns, the single
return's raw type, or a `std::tuple<...>` of the raw types joined by `','`. -/
def format_return_type : List Ret → String
  | [] => "void"
  | [r] => r.type
  | returns => "std::tuple<" ++ joinSep "," (returns.map Ret.type) ++ ">"

/-- `get_simple_type(arg)` (lines 104-112) reads only `arg['type']`; the body
is `get_simple_type_str`.  In Python the same function is also applied to
return dicts; for those `get_simple_type_str` is applied to `Ret.type`
directly. -/
def get_simple_type (arg : Argument) : String :=
  get_simple_type_str arg.type

/-- The body of the enrichment loop of `load_aten_declarations`
(lines 131-154) for one declaration: in Python it writes each derived field
into the same dicts; here it is the value those dicts hold after the loop
body ran. -/
def enrich_declaration (declaration : Decl) : Decl :=
  let arguments := declaration.arguments.map
    (fun arg => { arg with simple_type := some (get_simple_type arg) })
  let schema_order_arguments := declaration.schema_order_arguments.map
    (fun arg => { arg with simple_type := some (get_simple_type arg) })
  let returns := declaration.returns.map
    (fun ret => { ret with simple_type := some (get_simple_type_str ret.type) })
  let operator_name_with_overload :=
    (pySplit1 '(' declaration.schema_string).headD ""
  { declaration with
    arguments := arguments
    schema_order_arguments := schema_order_arguments
    returns := returns
    formals := some (arguments.map (fun arg => arg.type ++ " " ++ arg.name))
    schema_order_formals :=
      some (schema_order_arguments.map (fun arg => arg.type ++ " " ++ arg.name))
    args := some (arguments.map Argument.name)
    schema_order_args := some (schema_order_arguments.map Argument.name)
    api_name := some declaration.name
    type_wrapper_name :=
      some (if declaration.overload_name ≠ "" then
              declaration.name ++ "_" ++ declaration.overload_name
            else declaration.name)
    operator_name_with_overload := some operator_name_with_overload
    -- Python takes `.split('::')[1]`, an IndexError when no `::` is present;
    -- every schema string carries a `ns::` qualifier, so the `""` fallback of
    -- `getD` is unreachable on schema input.
    unqual_operator_name_with_overload :=
      some ((pySplit operator_name_with_overload "::").getD 1 "")
    return_type := some (format_return_type returns)
    base_name := some declaration.name }

/-- `load_aten_declarations` (lines 121-157).  The Python loop mutates each
non-deprecated declaration dict in place and appends that same dict to
`selected_declarations`.  The first component is the post-loop state of the
loaded list's records, the second is `selected_declarations`; that the second
is built from the first models the aliasing. -/
def load_aten_declarations : List Decl → List Decl × List Decl
  | [] => ([], [])
  | declaration :: rest =>
    let (post, selected) := load_aten_declarations rest
    if declaration.deprecated.getD false then
      (declaration :: post, selected)
    else
      let e := enrich_declaration declaration
      (e :: post, e :: selected)

/-- Modelled from the spec: `split_name_params` lives in the external
`tools/autograd/utils.py` (not under `src/`); per §3 and §6 it parses a
prototype string `"name(p1, p2, ...)"` into the name and the ordered
comma-separated pieces.  A deprecated spec is therefore embedded already in
parsed form: the legacy declaration as `(name, params)` and the `aten` call
expression as `(aten_name, call_args)`. -/
structure DeprecatedSpec where
  name : String
  params : List String
  aten_name : String
  call_args : List String
deriving DecidableEq, Repr

/-- Reading `arg['simple_type']`: a KeyError when the enrichment loop has not
written the key. -/
def argSimpleType (arg : Argument) : Except PyErr String :=
  match arg.simple_type with
  | some s => .ok s
  | none => .error (.keyError "simple_type")

/-- The `simple_type` sequence of a declaration's arguments (with `""` for an
absent key; under the enriched-declaration hypotheses of the theorems below
the key is always present). -/
def argSimpleTypes (d : Decl) : List String :=
  d.arguments.map (fun arg => arg.simple_type.getD "")

/-- The grouper's `base_name` (line 165): `name[:-1]` when the declaration is
in-place, the name itself otherwise. -/
def grouper_base_name (d : Decl) : String :=
  if d.inplace then String.mk d.name.toList.dropLast else d.name

/-- The signature string a declaration is bucketed under (lines 164-167):
`'{}({})'.format(base_name, ', '.join(simple_types))`. -/
def signature_of (d : Decl) : Except PyErr String := do
  let simple_types ← d.arguments.mapM argSimpleType
  return grouper_base_name d ++ "(" ++ joinSep ", " simple_types ++ ")"

/-- Appending a declaration to its signature's bucket: Python's
`defaultdict(list)` keeps per-key insertion order. -/
def bucketAdd : List (String × List Decl) → String → Decl → List (String × List Decl)
  | [], sig, d => [(sig, [d])]
  | (k, v) :: rest, sig, d =>
    if k = sig then (k, v ++ [d]) :: rest else (k, v) :: bucketAdd rest sig d

/-- The loop of `group_declarations_by_signature` (lines 161-169) with its
accumulated dict. -/
def groupAux (acc : List (String × List Decl)) : List Decl →
    Except PyErr (List (String × List Decl))
  | [] => .ok acc
  | d :: ds => do
    let sig ← signature_of d
    groupAux (bucketAdd acc sig d) ds

/-- `group_declarations_by_signature` (lines 161-169), as a function of the
`aten_decls` the Python closure captures. -/
def group_declarations_by_signature (aten_decls : List Decl) :
    Except PyErr (List (String × List Decl)) :=
  groupAux [] aten_decls

/-- `declarations_by_signature[signature]`: a `defaultdict(list)` yields `[]`
for an unknown key. -/
def dictGetD (d : List (String × List Decl)) (k : String) : List Decl :=
  match d.find? (fun p => p.1 == k) with
  | some p => p.2
  | none => []

/-- The parameter-name → parameter-type dict of `get_signature` (line 178):
`dict([param.split(' ')[::-1] for param in params if param != '*'])`.  A
param that does not split into exactly two pieces makes `dict(...)` raise a
ValueError. -/
def param_types : List String → Except PyErr (List (String × String))
  | [] => .ok []
  | p :: rest =>
    if p = "*" then param_types rest
    else
      match pySplit1 ' ' p with
      | [t, n] => do
        let tail ← param_types rest
        return (n, t) :: tail
      | _ => .error (.valueError p)

/-- Lookup in a dict built from an ordered pair list: a later pair with the
same key overrides an earlier one, exactly as Python `dict(pairs).get`. -/
def dictGetLast : List (String × String) → String → String → String
  | [], _, dflt => dflt
  | (k, v) :: rest, key, dflt =>
    dictGetLast rest key (if k = key then v else dflt)

/-- The rearranged type sequence of `get_signature` (line 181): each call
argument gets its declared parameter type, or `'Scalar'` when it names no
known parameter. -/
def rearranged_types (types : List (String × String)) (call_args : List String) :
    List String :=
  call_args.map (fun arg => dictGetLast types arg "Scalar")

/-- `get_signature` (lines 176-182). -/
def get_signature (name : String) (params call_args : List String) :
    Except PyErr String := do
  let types ← param_types params
  return name ++ "(" ++ joinSep ", " (rearranged_types types call_args) ++ ")"

/-- The index of the last occurrence of `x` in `l`: the value
`{arg: i for i, arg in enumerate(call_args)}[x]` holds (a later duplicate
overrides an earlier index). -/
def lastIdxOf : List String → String → Option Nat
  | [], _ => none
  | a :: l, x =>
    match lastIdxOf l x with
    | some i => some (i + 1)
    | none => if a = x then some 0 else none

/-- `call_arg_to_idx[param_name]` (line 208): a KeyError when the name is not
a call argument. -/
def call_arg_to_idx (call_args : List String) (param_name : String) :
    Except PyErr Nat :=
  match lastIdxOf call_args param_name with
  | some i => .ok i
  | none => .error (.keyError param_name)

/-- `original_args[idx]`: an IndexError past the end. -/
def listGetE (l : List Argument) (idx : Nat) : Except PyErr Argument :=
  match l.get? idx with
  | some a => .ok a
  | none => .error .indexError

/-- `mapM` for `Except`, written out so its equations hold by `rfl`: the
first failing element aborts, as an uncaught Python exception does. -/
def mapE (f : α → Except PyErr β) : List α → Except PyErr (List β)
  | [] => .ok []
  | a :: as => do
    let b ← f a
    let bs ← mapE f as
    return b :: bs

/-- The `for param in params` loop of `load_deprecated_signatures`
(lines 201-216): build the resolved argument list in legacy order, `name` and
`kwarg_only` from the legacy parameter, `type`/`simple_type`/`dynamic_type`/
`output` from the canonical argument at the position the parameter's name
holds in `call_args` (the new dict carries no `default` key). -/
def buildArguments (call_args : List String) (original_args : List Argument) :
    Bool → List String → Except PyErr (List Argument)
  | _, [] => .ok []
  | kwarg_only, param :: rest =>
    if param = "*" then buildArguments call_args original_args true rest
    else do
      let param_name ←
        match pySplit1 ' ' param with
        | [_, n] => Except.ok n
        | _ => Except.error (.valueError param)
      let idx ← call_arg_to_idx call_args param_name
      let original ← listGetE original_args idx
      let simple_type ← argSimpleType original
      let tail ← buildArguments call_args original_args kwarg_only rest
      return { name := param_name
               kwarg_only := some kwarg_only
               type := original.type
               simple_type := some simple_type
               dynamic_type := original.dynamic_type
               output := some (original.output.getD false) } :: tail

/-- The per-matched-declaration body of `load_deprecated_signatures`
(lines 189-218): `copy.deepcopy` is value semantics here, then `deprecated`,
`call_args` and the rebuilt `arguments` are written. -/
def resolveDecl (dep : DeprecatedSpec) (declaration : Decl) : Except PyErr Decl := do
  let arguments ← buildArguments dep.call_args declaration.arguments false dep.params
  return { declaration with
           deprecated := some true
           call_args := some dep.call_args
           arguments := arguments }

/-- The `for deprecated in deprecated_defs` loop (lines 184-218): the
resolved declarations of all specs, concatenated in order. -/
def resolveSpecs (bySig : List (String × List Decl)) :
    List DeprecatedSpec → Except PyErr (List Decl)
  | [] => .ok []
  | dep :: rest => do
    let signature ← get_signature dep.aten_name dep.params dep.call_args
    let resolved ← mapE (resolveDecl dep) (dictGetD bySig signature)
    let tail ← resolveSpecs bySig rest
    return resolved ++ tail

/-- `load_deprecated_signatures` (lines 160-219), with the deprecated specs
already in parsed form (see `DeprecatedSpec`). -/
def load_deprecated_signatures (aten_decls : List Decl)
    (deprecated_defs : List DeprecatedSpec) : Except PyErr (List Decl) := do
  let declarations_by_signature ← group_declarations_by_signature aten_decls
  resolveSpecs declarations_by_signature deprecated_defs

/-! Concrete fixtures: the canonical `add(Tensor self, Tensor other, Scalar
alpha)` declaration as the schema loader delivers it, and the deprecated
spec `name: "add(Tensor self, Scalar alpha, Tensor other)"`,
`aten: "add(self, other, alpha)"`. -/

/-- The raw canonical `add.Tensor` declaration. -/
def rawAdd : Decl :=
  { name := "add"
    overload_name := "Tensor"
    inplace := false
    arguments :=
      [ { name := "self", type := "const Tensor &", dynamic_type := "Tensor" },
        { name := "other", type := "const Tensor &", dynamic_type := "Tensor" },
        { name := "alpha", type := "Scalar", dynamic_type := "Scalar",
          default := some "1", kwarg_only := some true } ]
    schema_order_arguments :=
      [ { name := "self", type := "const Tensor &", dynamic_type := "Tensor" },
        { name := "other", type := "const Tensor &", dynamic_type := "Tensor" },
        { name := "alpha", type := "Scalar", dynamic_type := "Scalar",
          default := some "1", kwarg_only := some true } ]
    returns := [ { name := "result", type := "Tensor", dynamic_type := "Tensor" } ]
    schema_string :=
      "aten::add.Tensor(Tensor self, Tensor other, *, Scalar alpha=1) -> Tensor" }

/-- The deprecated `add` spec of the claim, in parsed form. -/
def addSpec : DeprecatedSpec :=
  { name := "add"
    params := ["Tensor self", "Scalar alpha", "Tensor other"]
    aten_name := "add"
    call_args := ["self", "other", "alpha"] }

/-- A deprecated spec whose erased signature (`sub(Tensor, Tensor, Scalar)`)
matches no canonical declaration of the `add`-only declaration pool. -/
def subSpec : DeprecatedSpec :=
  { name := "sub"
    params := ["Tensor self", "Scalar alpha", "Tensor other"]
    aten_name := "sub"
    call_args := ["self", "other", "alpha"] }

/-- A deprecated spec whose legacy parameter `beta` does not appear in its
call-argument list, while its erased signature still matches the canonical
`add`. -/
def badSpec : DeprecatedSpec :=
  { name := "add"
    params := ["Tensor self", "Scalar alpha", "Tensor other", "Scalar beta"]
    aten_name := "add"
    call_args := ["self", "other", "alpha"] }

/-- An in-place declaration, for the witnesses below. -/
def rawAddInplace : Decl :=
  { name := "add_"
    inplace := true
    arguments :=
      [ { name := "self", type := "Tensor &", dynamic_type := "Tensor" },
        { name := "other", type := "const Tensor &", dynamic_type := "Tensor" } ]
    schema_order_arguments :=
      [ { name := "self", type := "Tensor &", dynamic_type := "Tensor" },
        { name := "other", type := "const Tensor &", dynamic_type := "Tensor" } ]
    returns := [ { name := "self", type := "Tensor &", dynamic_type := "Tensor" } ]
    schema_string :=
      "aten::add_.Tensor(Tensor(a!) self, Tensor other) -> Tensor(a!)" }

/-- The name of the first legacy parameter (sentinel excluded) whose name is
absent from the call-argument list, provided every parameter before it is the
sentinel or a well-formed two-word parameter whose name is a call argument
(`none` otherwise): the parameter whose `call_arg_to_idx` lookup is the first
statement of the resolver's argument loop to raise. -/
def firstMissing (call_args : List String) : List String → Option String
  | [] => none
  | p :: rest =>
    if p = "*" then firstMissing call_args rest
    else
      match pySplit1 ' ' p with
      | [_, n] => if n ∈ call_args then firstMissing call_args rest else some n
      | _ => none

instance {α : Type} [DecidableEq α] : DecidableEq (Except PyErr α) := fun x y =>
  match x, y with
  | .ok a, .ok b =>
    if h : a = b then .isTrue (by rw [h]) else .isFalse (by simp [h])
  | .error e, .error f =>
    if h : e = f then .isTrue (by rw [h]) else .isFalse (by simp [h])
  | .ok _, .error _ => .isFalse (by simp)
  | .error _, .ok _ => .isFalse (by simp)

/-- Two enriched declarations whose distinct simple-type sequences format to
the same signature string: one argument of simple type `"A, B"`. -/
def groupCollide1 : Decl :=
  { name := "f"
    arguments :=
      [ { name := "x", type := "A, B", dynamic_type := "A, B",
          simple_type := some "A, B" } ] }

/-- The two-argument partner of `groupCollide1`: simple types `"A"`, `"B"`. -/
def groupCollide2 : Decl :=
  { name := "f"
    arguments :=
      [ { name := "y", type := "A", dynamic_type := "A", simple_type := some "A" },
        { name := "z", type := "B", dynamic_type := "B", simple_type := some "B" } ] }

/-- `groupCollide2` with different argument names, raw types and defaults but
the same simple types: a true overload mate sharing the bucket. -/
def groupRenamed : Decl :=
  { name := "f"
    arguments :=
      [ { name := "u", type := "const A", dynamic_type := "A",
          default := some "1", simple_type := some "A" },
        { name := "w", type := "B", dynamic_type := "B",
          simple_type := some "B" } ] }

/-- Claim C1: resolving the deprecated spec
`add(Tensor self, Scalar alpha, Tensor other)` with call `add(self, other,
alpha)` against the enriched canonical `add(Tensor self, Tensor other, Scalar
alpha)` yields exactly one synthetic declaration: its arguments stand in the
legacy order `[self, alpha, other]`; each carries the `type`, `simple_type`,
`dynamic_type` and `output` flag of the canonical argument at the position
its name holds in the call-argument list (so `alpha` gets type `Scalar` from
canonical position 2, not a literal-scalar guess), while `name` and
`kwarg_only` come from the legacy parameter list. -/
theorem claim1_deprecated_add_resolution :
    load_deprecated_signatures (load_aten_declarations [rawAdd]).2 [addSpec] =
      .ok [{ enrich_declaration rawAdd with
             deprecated := some true
             call_args := some ["self", "other", "alpha"]
             arguments :=
               [ { name := "self", kwarg_only := some false,
                   type := "const Tensor &", simple_type := some "Tensor",
                   dynamic_type := "Tensor", output := some false },
                 { name := "alpha", kwarg_only := some false,
                   type := "Scalar", simple_type := some "Scalar",
                   dynamic_type := "Scalar", output := some false },
                 { name := "other", kwarg_only := some false,
                   type := "const Tensor &", simple_type := some "Tensor",
                   dynamic_type := "Tensor", output := some false } ] }] := by
  rfl

/-- Claim C4, counterexample: the normalizer maps the optional-wrapper string
`"c10::optional<int64_t>"` to `"int64_t?"`, not to `"int64?"` as the claim
states (the regex group keeps the full token `int64_t`). -/
theorem claim4_counterexample :
    get_simple_type
        { name := "dim", type := "c10::optional<int64_t>",
          dynamic_type := "int64_t" } ≠ "int64?" := by
  decide

/-- Claim C4 as amended: normalizing `"c10::optional<int64_t>"` yields
`"int64_t?"` (a trailing-`?` optional marker around the unchanged inner
token). -/
theorem claim4_optional_rendering :
    get_simple_type
        { name := "dim", type := "c10::optional<int64_t>",
          dynamic_type := "int64_t" } = "int64_t?" := by
  decide

/-- Claim C8: `format_return_type` renders the empty returns list as the void
marker `"void"`, a single return as that return's raw type, and two or more
returns as a `std::tuple<...>` of all raw return types joined by commas in
declaration order. -/
theorem claim8_return_type_rendering (returns : List Ret) :
    (returns = [] → format_return_type returns = "void") ∧
    (∀ r, returns = [r] → format_return_type returns = r.type) ∧
    (2 ≤ returns.length →
      format_return_type returns =
        "std::tuple<" ++ joinSep "," (returns.map Ret.type) ++ ">") := by
  refine ⟨fun h => by subst h; rfl, fun r h => by subst h; rfl, fun h => ?_⟩
  match returns, h with
  | r1 :: r2 :: rest, _ => rfl

/-- Claim C8, witness: the three cases of `claim8_return_type_rendering` at
concrete return lists (two `Tensor` returns render as a two-element
tuple-of-`Tensor` string). -/
theorem claim8_return_type_rendering_witness :
    format_return_type [] = "void" ∧
    format_return_type [{ name := "result", type := "Tensor",
                          dynamic_type := "Tensor" }] = "Tensor" ∧
    format_return_type
        [{ name := "output", type := "Tensor", dynamic_type := "Tensor" },
         { name := "indices", type := "Tensor", dynamic_type := "Tensor" }] =
      "std::tuple<Tensor,Tensor>" :=
  ⟨(claim8_return_type_rendering []).1 rfl,
   (claim8_return_type_rendering _).2.1 _ rfl,
   by
    have h := (claim8_return_type_rendering
      [{ name := "output", type := "Tensor", dynamic_type := "Tensor" },
       { name := "indices", type := "Tensor", dynamic_type := "Tensor" }]).2.2
      (by decide)
    simpa using h⟩

/-- Claim C7, counterexample: running `load_aten_declarations` over a list
holding the raw `add` declaration leaves those records changed — the loop
writes the derived fields into the loaded dicts themselves, so the raw
declaration records ARE mutated in place, contradicting the claim. -/
theorem claim7_counterexample :
    (load_aten_declarations [rawAdd]).1 ≠ [rawAdd] := by
  decide

/-- Claim C7 as amended: the enricher is in-place — after the loop every
non-deprecated loaded record has been overwritten with its enriched value
(first component), and `selected_declarations` is exactly those same
mutated records (the output aliases the mutated input; the only fresh copies
in the pipeline are the resolver's deep copies). -/
theorem claim7_enrichment_mutates_in_place (declarations : List Decl) :
    (load_aten_declarations declarations).1 =
      declarations.map
        (fun d => if d.deprecated.getD false then d else enrich_declaration d) ∧
    (load_aten_declarations declarations).2 =
      ((load_aten_declarations declarations).1).filter
        (fun d => !(d.deprecated.getD false)) := by
  induction declarations with
  | nil => exact ⟨rfl, rfl⟩
  | cons d ds ih =>
    by_cases h : d.deprecated.getD false
    · simp [load_aten_declarations, h, ih.1, ih.2, List.filter_cons]
    · have hdep : (enrich_declaration d).deprecated.getD false = false := by
        simp only [enrich_declaration]
        simpa using h
      simp [load_aten_declarations, h, ih.1, ih.2, List.filter_cons, hdep]

/-- Claim C10: the enriched `base_name` field is the declared name unchanged,
even for an in-place declaration; the trailing in-place marker is dropped
only inside the grouper's key computation, so for an in-place declaration
(whose name is non-empty) the stored `base_name` differs from the base name
its grouping key is built from. -/
theorem claim10_base_name_unstripped (d : Decl) :
    (enrich_declaration d).base_name = some d.name ∧
    (d.inplace →
      grouper_base_name (enrich_declaration d) =
        String.mk d.name.toList.dropLast) ∧
    (d.inplace → d.name ≠ "" →
      (enrich_declaration d).base_name ≠
        some (grouper_base_name (enrich_declaration d))) := by
  have hbase : d.inplace → grouper_base_name (enrich_declaration d) =
      String.mk d.name.toList.dropLast := by
    intro hinp
    have hi : (enrich_declaration d).inplace = d.inplace := rfl
    have hn : (enrich_declaration d).name = d.name := rfl
    simp [grouper_base_name, hi, hn, hinp]
  refine ⟨rfl, hbase, fun hinp hne => ?_⟩
  · rw [hbase hinp]
    intro hcontra
    have heq : d.name = String.mk d.name.toList.dropLast :=
      Option.some.inj (by exact hcontra)
    have hdata : d.name.toList = d.name.toList.dropLast :=
      congrArg String.toList heq
    have hnil : d.name.toList ≠ [] := by
      intro hn
      apply hne
      have : d.name = String.mk d.name.toList := rfl
      rw [this, hn]
    have hlen := congrArg List.length hdata
    rw [List.length_dropLast] at hlen
    have hpos : 0 < d.name.toList.length := List.length_pos.mpr hnil
    omega

/-- Claim C10, witness: `claim10_base_name_unstripped` at the in-place
declaration `add_`: the enriched record stores `base_name = "add_"`, while
its grouping key uses base name `"add"`. -/
theorem claim10_base_name_unstripped_witness :
    (enrich_declaration rawAddInplace).base_name = some "add_" ∧
    grouper_base_name (enrich_declaration rawAddInplace) = "add" ∧
    (enrich_declaration rawAddInplace).base_name ≠
      some (grouper_base_name (enrich_declaration rawAddInplace)) := by
  have h := claim10_base_name_unstripped rawAddInplace
  exact ⟨h.1, by rw [h.2.1 (by decide)]; rfl, h.2.2 (by decide) (by decide)⟩

/-- No occurrence of the (non-empty) pattern anywhere in `s` means the
replacement scan returns `s` unchanged, whatever the fuel. -/
theorem replaceAllAux_of_not_hasSub (pat rep : List Char) (s : List Char)
    (h : hasSub pat s = false) :
    ∀ fuel, replaceAllAux pat rep fuel s = s := by
  induction s with
  | nil => intro fuel; cases fuel <;> rfl
  | cons c cs ih =>
    intro fuel
    have hor := h
    simp only [hasSub, Bool.or_eq_false_iff] at hor
    cases fuel with
    | zero => rfl
    | succ fuel =>
      simp only [replaceAllAux, hor.1, Bool.false_eq_true, if_neg,
        not_false_eq_true]
      rw [ih hor.2]

/-- Python `s.replace(pat, rep)` returns `s` unchanged when `pat` does not
occur in `s`. -/
theorem pyReplace_self (s pat rep : String) (hp : pat ≠ "")
    (h : hasSub pat.toList s.toList = false) : pyReplace s pat rep = s := by
  unfold pyReplace
  rw [if_neg (fun hc => hp (by simpa [String.isEmpty_iff] using hc))]
  rw [replaceAllAux_of_not_hasSub pat.toList rep.toList s.toList h]
  rfl

/-- Claim C3, counterexample: the normalizer is not idempotent.  On the
nested optional type `c10::optional<c10::optional<int64_t>>` one pass
rewrites only the outer wrapper (the greedy group is
`c10::optional<int64_t>`), so a second pass still changes the string. -/
theorem claim3_counterexample :
    get_simple_type_str
        (get_simple_type_str "c10::optional<c10::optional<int64_t>>") ≠
      get_simple_type_str "c10::optional<c10::optional<int64_t>>" := by
  decide

/-- Claim C3 as amended: normalization is idempotent on every type string
whose normal form is a fixed point of the four rewrite steps — it contains no
further `" &"`, `"const "` or `"Generator *"` substring and does not match
the optional-wrapper pattern.  (All simple types of well-formed schema type
strings are of this shape; the counterexample shows a nested optional
wrapper, whose normal form matches the pattern again, needs a second pass.) -/
theorem claim3_normalize_idempotent_on_fixed_points (t : String)
    (h1 : hasSub " &".toList (get_simple_type_str t).toList = false)
    (h2 : hasSub "const ".toList (get_simple_type_str t).toList = false)
    (h3 : hasSub "Generator *".toList (get_simple_type_str t).toList = false)
    (h4 : optMatchGroup (get_simple_type_str t) = none) :
    get_simple_type_str (get_simple_type_str t) = get_simple_type_str t := by
  generalize hs : get_simple_type_str t = s at h1 h2 h3 h4 ⊢
  show get_simple_type_str s = s
  simp only [get_simple_type_str]
  rw [pyReplace_self s " &" "" (by decide) h1,
    pyReplace_self s "const " "" (by decide) h2,
    pyReplace_self s "Generator *" "Generator" (by decide) h3, h4]

/-- Claim C3, witness: `claim3_normalize_idempotent_on_fixed_points` at the
realistic type string `"const Tensor &"`. -/
theorem claim3_normalize_idempotent_witness :
    get_simple_type_str (get_simple_type_str "const Tensor &") =
      get_simple_type_str "const Tensor &" :=
  claim3_normalize_idempotent_on_fixed_points "const Tensor &" (by decide)
    (by decide) (by decide) (by decide)

/-- A key absent from the pair list falls through to the fallback value. -/
theorem dictGetLast_not_mem (pairs : List (String × String)) (key dflt : String)
    (h : key ∉ pairs.map Prod.fst) : dictGetLast pairs key dflt = dflt := by
  induction pairs generalizing dflt with
  | nil => rfl
  | cons kv rest ih =>
    simp only [List.map_cons, List.mem_cons, not_or] at h
    simp only [dictGetLast]
    rw [if_neg (fun hc => h.1 hc.symm)]
    exact ih _ h.2

/-- With no duplicate keys, lookup returns the unique pair's value. -/
theorem dictGetLast_mem_nodup (pairs : List (String × String))
    (key v dflt : String) (hnd : (pairs.map Prod.fst).Nodup)
    (hmem : (key, v) ∈ pairs) : dictGetLast pairs key dflt = v := by
  induction pairs generalizing dflt with
  | nil => cases hmem
  | cons kv rest ih =>
    simp only [List.map_cons, List.nodup_cons] at hnd
    rcases List.mem_cons.mp hmem with heq | hrest
    · subst heq
      simp only [dictGetLast, if_pos rfl]
      apply dictGetLast_not_mem
      exact hnd.1
    · have hne : kv.1 ≠ key := by
        intro hk
        exact hnd.1 (hk ▸ List.mem_map_of_mem Prod.fst hrest)
      simp only [dictGetLast]
      rw [if_neg hne]
      exact ih _ hnd.2 hrest

/-- Every pair the parameter dict holds comes from a two-word legacy
parameter (reversed by the `[::-1]`): the value is the declared type. -/
theorem param_types_mem (params : List String)
    (tps : List (String × String)) (h : param_types params = .ok tps) :
    ∀ n t, (n, t) ∈ tps →
      ∃ p, p ∈ params ∧ p ≠ "*" ∧ pySplit1 ' ' p = [t, n] := by
  induction params generalizing tps with
  | nil =>
    intro n t hm
    simp only [param_types, Except.ok.injEq] at h
    subst h
    cases hm
  | cons p rest ih =>
    intro n t hm
    by_cases hp : p = "*"
    · simp only [param_types, hp, if_pos] at h
      obtain ⟨q, hq, hq2, hq3⟩ := ih tps h n t hm
      exact ⟨q, List.mem_cons_of_mem _ hq, hq2, hq3⟩
    · simp only [param_types, hp, if_neg, not_false_eq_true] at h
      split at h
      next t1 n1 hsp =>
        cases htl : param_types rest with
        | error e => rw [htl] at h; exact Except.noConfusion h
        | ok tail =>
          rw [htl] at h
          have h2 : Except.ok ((n1, t1) :: tail) = Except.ok tps := h
          have h3 := Except.ok.inj h2
          subst h3
          rcases List.mem_cons.mp hm with heq | hrest
          · cases heq
            exact ⟨p, List.mem_cons_self p rest, hp, hsp⟩
          · obtain ⟨q, hq, hq2, hq3⟩ := ih tail htl n t hrest
            exact ⟨q, List.mem_cons_of_mem _ hq, hq2, hq3⟩
      next hsp => exact Except.noConfusion h

/-- Claim C6: in the rearranged type sequence of a deprecated spec, the entry
for a call argument that names a parameter of the legacy parameter list
(the keyword-only sentinel `*` is excluded from the dict) is that parameter's
declared type, and the entry for a call argument naming no known parameter is
the generic scalar type `"Scalar"`. -/
theorem claim6_call_arg_types (params call_args : List String)
    (tps : List (String × String))
    (hok : param_types params = .ok tps)
    (hnd : (tps.map Prod.fst).Nodup) :
    (∀ i (hi : i < call_args.length) (n t : String),
        call_args.get ⟨i, hi⟩ = n → (n, t) ∈ tps →
        (rearranged_types tps call_args).get? i = some t) ∧
    (∀ i (hi : i < call_args.length),
        call_args.get ⟨i, hi⟩ ∉ tps.map Prod.fst →
        (rearranged_types tps call_args).get? i = some "Scalar") ∧
    (∀ n t, (n, t) ∈ tps →
        ∃ p, p ∈ params ∧ p ≠ "*" ∧ pySplit1 ' ' p = [t, n]) := by
  refine ⟨fun i hi n t hname hmem => ?_, fun i hi hnot => ?_,
    param_types_mem params tps hok⟩
  · rw [rearranged_types, List.get?_map, List.get?_eq_get hi]
    show some (dictGetLast tps (call_args.get ⟨i, hi⟩) "Scalar") = some t
    rw [hname, dictGetLast_mem_nodup tps n t "Scalar" hnd hmem]
  · rw [rearranged_types, List.get?_map, List.get?_eq_get hi]
    show some (dictGetLast tps (call_args.get ⟨i, hi⟩) "Scalar") = some "Scalar"
    rw [dictGetLast_not_mem tps _ "Scalar" hnot]

/-- Claim C6, witness: `claim6_call_arg_types` on the deprecated `add` spec
extended with a literal call argument `2`: `self` gets the declared `Tensor`,
`alpha` gets the declared `Scalar`, and the literal `2` falls back to
`"Scalar"`. -/
theorem claim6_call_arg_types_witness :
    (rearranged_types [("self", "Tensor"), ("alpha", "Scalar"), ("other", "Tensor")]
        ["self", "other", "alpha", "2"]).get? 0 = some "Tensor" ∧
    (rearranged_types [("self", "Tensor"), ("alpha", "Scalar"), ("other", "Tensor")]
        ["self", "other", "alpha", "2"]).get? 2 = some "Scalar" ∧
    (rearranged_types [("self", "Tensor"), ("alpha", "Scalar"), ("other", "Tensor")]
        ["self", "other", "alpha", "2"]).get? 3 = some "Scalar" := by
  have h := claim6_call_arg_types ["Tensor self", "Scalar alpha", "Tensor other"]
    ["self", "other", "alpha", "2"]
    [("self", "Tensor"), ("alpha", "Scalar"), ("other", "Tensor")] rfl (by decide)
  exact ⟨h.1 0 (by decide) "self" "Tensor" rfl (by decide),
    h.1 2 (by decide) "alpha" "Scalar" rfl (by decide),
    h.2.1 3 (by decide) (by decide)⟩



/-- Computation rule of `Except` bind on a success, by definitional
unfolding. -/
theorem ok_bind (a : α) (f : α → Except PyErr β) :
    (Except.ok a >>= f) = f a := rfl

/-- Computation rule of `Except` bind on an error, by definitional
unfolding. -/
theorem error_bind (e : PyErr) (f : α → Except PyErr β) :
    ((Except.error e : Except PyErr α) >>= f) = Except.error e := rfl

/-- Claim C5: a deprecated spec whose inferred signature has an empty bucket
contributes zero resolved declarations, and resolving the remaining specs
proceeds exactly as if the spec were absent — no error is raised for it and
the pipeline does not abort. -/
theorem claim5_unmatched_spec_dropped (aten_decls : List Decl)
    (bySig : List (String × List Decl)) (pre post : List DeprecatedSpec)
    (dep : DeprecatedSpec) (sig : String)
    (hg : group_declarations_by_signature aten_decls = .ok bySig)
    (hs : get_signature dep.aten_name dep.params dep.call_args = .ok sig)
    (hb : dictGetD bySig sig = []) :
    load_deprecated_signatures aten_decls (pre ++ dep :: post) =
      load_deprecated_signatures aten_decls (pre ++ post) := by
  unfold load_deprecated_signatures
  rw [hg]
  show resolveSpecs bySig (pre ++ dep :: post) = resolveSpecs bySig (pre ++ post)
  induction pre with
  | nil =>
    simp only [List.nil_append]
    simp only [resolveSpecs, hs, ok_bind, hb, mapE]
    cases hres : resolveSpecs bySig post with
    | ok tail => rfl
    | error e => rfl
  | cons p pre ih =>
    simp only [List.cons_append, resolveSpecs, List.append_eq, ih]

/-- Claim C5, witness: `claim5_unmatched_spec_dropped` on the
`add`-declaration pool: the unmatched `sub` spec in front of the `add` spec
changes nothing. -/
theorem claim5_unmatched_spec_dropped_witness :
    load_deprecated_signatures (load_aten_declarations [rawAdd]).2
        [subSpec, addSpec] =
      load_deprecated_signatures (load_aten_declarations [rawAdd]).2 [addSpec] :=
  claim5_unmatched_spec_dropped (load_aten_declarations [rawAdd]).2
    [("add(Tensor, Tensor, Scalar)", [enrich_declaration rawAdd])]
    [] [addSpec] subSpec "sub(Tensor, Tensor, Scalar)" rfl rfl rfl

/-- A successful last-index lookup is a position of the list. -/
theorem lastIdxOf_lt (l : List String) (x : String) :
    ∀ i, lastIdxOf l x = some i → i < l.length := by
  induction l with
  | nil => intro i h; cases h
  | cons a l ih =>
    intro i h
    simp only [lastIdxOf] at h
    cases hl : lastIdxOf l x with
    | some j =>
      rw [hl] at h
      cases h
      exact Nat.succ_lt_succ (ih j hl)
    | none =>
      rw [hl] at h
      by_cases ha : a = x
      · rw [if_pos ha] at h
        cases h
        exact Nat.succ_pos _
      · rw [if_neg ha] at h
        cases h

/-- A member of the list has a last index. -/
theorem lastIdxOf_isSome (l : List String) (x : String) (h : x ∈ l) :
    ∃ i, lastIdxOf l x = some i := by
  induction l with
  | nil => cases h
  | cons a l ih =>
    simp only [lastIdxOf]
    cases hl : lastIdxOf l x with
    | some j => exact ⟨j + 1, rfl⟩
    | none =>
      rcases List.mem_cons.mp h with heq | hmem
      · exact ⟨0, by rw [if_pos heq.symm]⟩
      · obtain ⟨j, hj⟩ := ih hmem
        rw [hj] at hl
        cases hl

/-- A non-member has no last index. -/
theorem lastIdxOf_none (l : List String) (x : String) (h : x ∉ l) :
    lastIdxOf l x = none := by
  induction l with
  | nil => rfl
  | cons a l ih =>
    simp only [List.mem_cons, not_or] at h
    simp only [lastIdxOf, ih h.2]
    rw [if_neg (fun hc => h.1 hc.symm)]

/-- Under the well-formedness conditions of `firstMissing`, the resolver's
argument-building loop raises the KeyError of the first legacy parameter
whose name is not a call argument. -/
theorem buildArguments_keyError (call_args : List String)
    (original_args : List Argument) (n : String)
    (henr : ∀ a ∈ original_args, a.simple_type.isSome)
    (hlen : call_args.length ≤ original_args.length) :
    ∀ (params : List String) (kw : Bool),
      firstMissing call_args params = some n →
      buildArguments call_args original_args kw params =
        .error (.keyError n) := by
  intro params
  induction params with
  | nil => intro kw hm; cases hm
  | cons p rest ih =>
    intro kw hm
    by_cases hp : p = "*"
    · simp only [firstMissing, hp, if_pos] at hm
      simp only [buildArguments, hp, if_pos]
      exact ih true hm
    · simp only [firstMissing, hp, if_neg, not_false_eq_true] at hm
      split at hm
      next t m heq =>
        by_cases hmem : m ∈ call_args
        · rw [if_pos hmem] at hm
          obtain ⟨i, hi⟩ := lastIdxOf_isSome call_args m hmem
          have hilt : i < original_args.length :=
            Nat.lt_of_lt_of_le (lastIdxOf_lt call_args m i hi) hlen
          have ha : original_args.get? i =
              some (original_args.get ⟨i, hilt⟩) := List.get?_eq_get hilt
          obtain ⟨st, hst⟩ := Option.isSome_iff_exists.mp
            (henr (original_args.get ⟨i, hilt⟩) (original_args.get_mem i hilt))
          simp only [buildArguments]
          rw [if_neg hp, heq]
          simp only [ok_bind, call_arg_to_idx, hi, listGetE, ha,
            argSimpleType, hst, ih kw hm, error_bind]
        · rw [if_neg hmem] at hm
          cases hm
          simp only [buildArguments]
          rw [if_neg hp, heq]
          simp only [ok_bind, call_arg_to_idx,
            lastIdxOf_none call_args n hmem, error_bind]
      next heq => cases hm

/-- Claim C9: when a deprecated spec's legacy parameter name is absent from
its call-argument list and the spec's signature matches at least one
canonical declaration, resolution raises the KeyError of the
call-arg-name-to-index dictionary access — the run aborts with an error
instead of skipping the spec or producing a resolved declaration. -/
theorem claim9_missing_param_keyerror (aten_decls : List Decl)
    (bySig : List (String × List Decl)) (dep : DeprecatedSpec)
    (rest : List DeprecatedSpec) (sig : String) (d0 : Decl) (ds : List Decl)
    (n : String)
    (hg : group_declarations_by_signature aten_decls = .ok bySig)
    (hs : get_signature dep.aten_name dep.params dep.call_args = .ok sig)
    (hb : dictGetD bySig sig = d0 :: ds)
    (henr : ∀ a ∈ d0.arguments, a.simple_type.isSome)
    (hlen : dep.call_args.length ≤ d0.arguments.length)
    (hm : firstMissing dep.call_args dep.params = some n) :
    load_deprecated_signatures aten_decls (dep :: rest) =
      .error (.keyError n) := by
  unfold load_deprecated_signatures
  rw [hg]
  show resolveSpecs bySig (dep :: rest) = .error (.keyError n)
  have hba : buildArguments dep.call_args d0.arguments false dep.params =
      .error (.keyError n) :=
    buildArguments_keyError dep.call_args d0.arguments n henr hlen
      dep.params false hm
  have hrd : resolveDecl dep d0 = .error (.keyError n) := by
    simp only [resolveDecl, hba, error_bind]
  simp only [resolveSpecs, hs, ok_bind, hb, mapE, hrd, error_bind]

/-- Claim C9, witness: `claim9_missing_param_keyerror` on the spec whose
legacy parameter `beta` is no call argument: the whole resolution returns
`KeyError: beta`. -/
theorem claim9_missing_param_keyerror_witness :
    load_deprecated_signatures (load_aten_declarations [rawAdd]).2 [badSpec] =
      .error (.keyError "beta") :=
  claim9_missing_param_keyerror (load_aten_declarations [rawAdd]).2
    [("add(Tensor, Tensor, Scalar)", [enrich_declaration rawAdd])]
    badSpec [] "add(Tensor, Tensor, Scalar)" (enrich_declaration rawAdd) []
    "beta" rfl rfl rfl (by decide) (by decide) rfl

/-- `String.toList` distributes over append. -/
theorem toList_append (s t : String) : (s ++ t).toList = s.toList ++ t.toList :=
  String.data_append s t

/-- Strings with equal character lists are equal. -/
theorem toList_injective (s t : String) (h : s.toList = t.toList) : s = t :=
  congrArg String.mk h

/-- `takeWhile` stops exactly at the first failing element. -/
theorem takeWhile_append_all {α : Type} (p : α → Bool) (a : List α) (x : α)
    (r : List α) (ha : ∀ c ∈ a, p c = true) (hx : p x = false) :
    (a ++ x :: r).takeWhile p = a := by
  induction a with
  | nil => simp [List.takeWhile_cons, hx]
  | cons c cs ih =>
    have hc := ha c (List.mem_cons_self c cs)
    simp [List.takeWhile_cons, hc,
      ih (fun d hd => ha d (List.mem_cons_of_mem c hd))]

/-- `dropWhile` drops exactly up to the first failing element. -/
theorem dropWhile_append_all {α : Type} (p : α → Bool) (a : List α) (x : α)
    (r : List α) (ha : ∀ c ∈ a, p c = true) (hx : p x = false) :
    (a ++ x :: r).dropWhile p = x :: r := by
  induction a with
  | nil => simp [List.dropWhile_cons, hx]
  | cons c cs ih =>
    have hc := ha c (List.mem_cons_self c cs)
    simp [List.dropWhile_cons, hc,
      ih (fun d hd => ha d (List.mem_cons_of_mem c hd))]

/-- The characters of a two-or-more-element `", "`-join: head, separator,
joined tail. -/
theorem joinSep_comma_toList (a b : String) (l : List String) :
    (joinSep ", " (a :: b :: l)).toList =
      a.toList ++ ',' :: ' ' :: (joinSep ", " (b :: l)).toList := by
  show (a ++ ", " ++ joinSep ", " (b :: l)).toList = _
  rw [toList_append, toList_append, List.append_assoc]
  rfl

/-- `", ".join` is injective on lists of non-empty comma-free strings. -/
theorem joinSep_comma_inj : ∀ (l1 l2 : List String),
    (∀ s ∈ l1, s ≠ "" ∧ ∀ c ∈ s.toList, c ≠ ',') →
    (∀ s ∈ l2, s ≠ "" ∧ ∀ c ∈ s.toList, c ≠ ',') →
    joinSep ", " l1 = joinSep ", " l2 → l1 = l2 := by
  intro l1
  induction l1 with
  | nil =>
    intro l2 h1 h2 heq
    cases l2 with
    | nil => rfl
    | cons b bs =>
      exfalso
      cases bs with
      | nil => exact (h2 b (List.mem_cons_self b [])).1 heq.symm
      | cons b2 bs' =>
        have hl := congrArg String.toList heq
        rw [joinSep_comma_toList] at hl
        have hl' : ([] : List Char) =
            b.toList ++ ',' :: ' ' :: (joinSep ", " (b2 :: bs')).toList := hl
        exact absurd hl'.symm (by simp)
  | cons a as ih =>
    intro l2 h1 h2 heq
    cases l2 with
    | nil =>
      exfalso
      cases as with
      | nil => exact (h1 a (List.mem_cons_self a [])).1 heq
      | cons a2 as' =>
        have hl := congrArg String.toList heq
        rw [joinSep_comma_toList] at hl
        have hl' : a.toList ++ ',' :: ' ' :: (joinSep ", " (a2 :: as')).toList =
            ([] : List Char) := hl
        exact absurd hl' (by simp)
    | cons b bs =>
      cases as with
      | nil =>
        cases bs with
        | nil => rw [show a = b from heq]
        | cons b2 bs' =>
          exfalso
          have hl := congrArg String.toList heq
          rw [joinSep_comma_toList] at hl
          have hmem : ',' ∈ a.toList := by
            rw [show a.toList =
              b.toList ++ ',' :: ' ' :: (joinSep ", " (b2 :: bs')).toList from hl]
            exact List.mem_append_right _ (List.mem_cons_self _ _)
          exact (h1 a (List.mem_cons_self _ _)).2 ',' hmem rfl
      | cons a2 as' =>
        cases bs with
        | nil =>
          exfalso
          have hl := congrArg String.toList heq
          rw [joinSep_comma_toList] at hl
          have hl2 : a.toList ++ ',' :: ' ' ::
              (joinSep ", " (a2 :: as')).toList = b.toList := hl
          have hmem : ',' ∈ b.toList := by
            rw [← hl2]
            exact List.mem_append_right _ (List.mem_cons_self _ _)
          exact (h2 b (List.mem_cons_self _ _)).2 ',' hmem rfl
        | cons b2 bs' =>
          have hl := congrArg String.toList heq
          rw [joinSep_comma_toList, joinSep_comma_toList] at hl
          have hpa : ∀ c ∈ a.toList, (c != ',') = true := fun c hc => by
            simp only [bne_iff_ne, ne_eq]
            exact (h1 a (List.mem_cons_self _ _)).2 c hc
          have hpb : ∀ c ∈ b.toList, (c != ',') = true := fun c hc => by
            simp only [bne_iff_ne, ne_eq]
            exact (h2 b (List.mem_cons_self _ _)).2 c hc
          have htw := congrArg (List.takeWhile (fun c => c != ',')) hl
          rw [takeWhile_append_all _ _ _ _ hpa (by decide),
            takeWhile_append_all _ _ _ _ hpb (by decide)] at htw
          have hab : a = b := toList_injective _ _ htw
          have hdw := congrArg (List.dropWhile (fun c => c != ',')) hl
          rw [dropWhile_append_all _ _ _ _ hpa (by decide),
            dropWhile_append_all _ _ _ _ hpb (by decide)] at hdw
          have hJ : (joinSep ", " (a2 :: as')).toList =
              (joinSep ", " (b2 :: bs')).toList := by
            injection hdw with _ h'
            injection h' with _ h''
          have htail := ih (b2 :: bs')
            (fun s hs => h1 s (List.mem_cons_of_mem a hs))
            (fun s hs => h2 s (List.mem_cons_of_mem b hs))
            (toList_injective _ _ hJ)
          rw [hab, htail]

/-- On an enriched argument list `mapM argSimpleType` succeeds with the
stored simple types. -/
theorem mapM_argSimpleType (args : List Argument)
    (h : ∀ a ∈ args, a.simple_type.isSome) :
    args.mapM argSimpleType =
      .ok (args.map (fun a => a.simple_type.getD "")) := by
  induction args with
  | nil => rfl
  | cons a as ih =>
    obtain ⟨st, hst⟩ := Option.isSome_iff_exists.mp (h a (List.mem_cons_self a as))
    rw [List.mapM_cons, ih (fun x hx => h x (List.mem_cons_of_mem a hx))]
    simp [argSimpleType, hst, ok_bind]

/-- On an enriched declaration the grouper's signature succeeds and formats
the base name with the `", "`-joined stored simple types. -/
theorem signature_of_enriched (d : Decl)
    (h : ∀ a ∈ d.arguments, a.simple_type.isSome) :
    signature_of d =
      .ok (grouper_base_name d ++ "(" ++
        joinSep ", " (argSimpleTypes d) ++ ")") := by
  unfold signature_of
  rw [mapM_argSimpleType d.arguments h]
  rfl

/-- Appending a declaration to the dict touches exactly the bucket of its
signature. -/
theorem dictGetD_bucketAdd (acc : List (String × List Decl)) (sig : String)
    (d : Decl) (s : String) :
    dictGetD (bucketAdd acc sig d) s =
      if s = sig then dictGetD acc s ++ [d] else dictGetD acc s := by
  induction acc with
  | nil =>
    by_cases hs : s = sig
    · subst hs
      simp [bucketAdd, dictGetD, List.find?]
    · simp only [bucketAdd, dictGetD, List.find?]
      have : (sig == s) = false := by
        simp [beq_eq_false_iff_ne]
        exact fun hc => hs hc.symm
      rw [this]
      simp [hs]
  | cons kv rest ih =>
    obtain ⟨k, v⟩ := kv
    by_cases hk : k = sig
    · subst hk
      have hb : bucketAdd ((k, v) :: rest) k d = (k, v ++ [d]) :: rest := by
        simp [bucketAdd]
      rw [hb]
      by_cases hs : s = k
      · subst hs
        have hfind1 : List.find? (fun p => p.1 == s) ((s, v ++ [d]) :: rest) =
            some (s, v ++ [d]) := List.find?_cons_of_pos _ (by simp)
        have hfind2 : List.find? (fun p => p.1 == s) ((s, v) :: rest) =
            some (s, v) := List.find?_cons_of_pos _ (by simp)
        simp [dictGetD, hfind1, hfind2]
      · have hkf : (k == s) = false := by
          simp only [beq_eq_false_iff_ne, ne_eq]
          exact fun hc => hs hc.symm
        have hfind1 : List.find? (fun p => p.1 == s) ((k, v ++ [d]) :: rest) =
            List.find? (fun p => p.1 == s) rest :=
          List.find?_cons_of_neg _ (by simpa using hkf)
        have hfind2 : List.find? (fun p => p.1 == s) ((k, v) :: rest) =
            List.find? (fun p => p.1 == s) rest :=
          List.find?_cons_of_neg _ (by simpa using hkf)
        simp [dictGetD, hfind1, hfind2, hs]
    · have hb : bucketAdd ((k, v) :: rest) sig d =
          (k, v) :: bucketAdd rest sig d := by
        simp [bucketAdd, hk]
      rw [hb]
      by_cases hs : s = k
      · have hs2 : s ≠ sig := fun hcon => hk (hs.symm.trans hcon)
        have hfind1 : List.find? (fun p => p.1 == s)
              ((k, v) :: bucketAdd rest sig d) = some (k, v) :=
          List.find?_cons_of_pos _ (by simp [hs])
        have hfind2 : List.find? (fun p => p.1 == s) ((k, v) :: rest) =
            some (k, v) := List.find?_cons_of_pos _ (by simp [hs])
        simp [dictGetD, hfind1, hfind2, hs2]
      · have hkf : (k == s) = false := by
          simp only [beq_eq_false_iff_ne, ne_eq]
          exact fun hc => hs hc.symm
        have hfind1 : List.find? (fun p => p.1 == s)
              ((k, v) :: bucketAdd rest sig d) =
            List.find? (fun p => p.1 == s) (bucketAdd rest sig d) :=
          List.find?_cons_of_neg _ (by simpa using hkf)
        have hfind2 : List.find? (fun p => p.1 == s) ((k, v) :: rest) =
            List.find? (fun p => p.1 == s) rest :=
          List.find?_cons_of_neg _ (by simpa using hkf)
        have lhs1 : dictGetD ((k, v) :: bucketAdd rest sig d) s =
            dictGetD (bucketAdd rest sig d) s := by simp [dictGetD, hfind1]
        have lhs2 : dictGetD ((k, v) :: rest) s = dictGetD rest s := by
          simp [dictGetD, hfind2]
        rw [lhs1, lhs2, ih]

/-- The grouping loop: each bucket of the final dict extends the
accumulator's bucket by exactly the processed declarations whose signature
formats to that key, in input order. -/
theorem groupAux_getD : ∀ (decls : List Decl)
    (acc bySig : List (String × List Decl)) (s : String),
    groupAux acc decls = .ok bySig →
    dictGetD bySig s = dictGetD acc s ++
      decls.filter (fun d => decide (signature_of d = .ok s)) := by
  intro decls
  induction decls with
  | nil =>
    intro acc bySig s h
    have h2 : acc = bySig := Except.ok.inj h
    rw [← h2]
    simp
  | cons d ds ih =>
    intro acc bySig s h
    cases hsig : signature_of d with
    | error e =>
      simp only [groupAux, hsig, error_bind] at h
      exact Except.noConfusion h
    | ok sig =>
      simp only [groupAux, hsig, ok_bind] at h
      rw [ih (bucketAdd acc sig d) bySig s h, dictGetD_bucketAdd]
      by_cases hss : s = sig
      · subst hss
        rw [if_pos rfl, List.filter_cons]
        have hpd : decide (signature_of d = Except.ok s) = true := by
          simp [hsig]
        rw [if_pos (by rw [hpd])]
        simp [List.append_assoc]
      · rw [if_neg hss, List.filter_cons]
        have hpd : decide (signature_of d = Except.ok s) = false := by
          rw [hsig]
          simp only [decide_eq_false_iff_not]
          exact fun hcon => hss (Except.ok.inj hcon).symm
        rw [if_neg (by rw [hpd]; exact Bool.false_ne_true)]

/-- The keys the bucket-append can produce: old keys and the new
signature. -/
theorem bucketAdd_keys_mem (acc : List (String × List Decl)) (sig : String)
    (d : Decl) (x : String)
    (h : x ∈ (bucketAdd acc sig d).map Prod.fst) :
    x ∈ acc.map Prod.fst ∨ x = sig := by
  induction acc with
  | nil =>
    simp [bucketAdd] at h
    exact Or.inr h
  | cons kv rest ih =>
    obtain ⟨k, v⟩ := kv
    by_cases hk : k = sig
    · subst hk
      have hb : bucketAdd ((k, v) :: rest) k d = (k, v ++ [d]) :: rest := by
        simp [bucketAdd]
      rw [hb] at h
      exact Or.inl (by simpa using h)
    · have hb : bucketAdd ((k, v) :: rest) sig d =
          (k, v) :: bucketAdd rest sig d := by
        simp [bucketAdd, hk]
      rw [hb] at h
      simp only [List.map_cons, List.mem_cons] at h
      rcases h with h | h
      · exact Or.inl (by simp [h])
      · rcases ih h with h2 | h2
        · exact Or.inl (by simp [h2])
        · exact Or.inr h2

/-- The bucket-append keeps the dict's keys duplicate-free. -/
theorem bucketAdd_keys_nodup (acc : List (String × List Decl)) (sig : String)
    (d : Decl) (h : (acc.map Prod.fst).Nodup) :
    ((bucketAdd acc sig d).map Prod.fst).Nodup := by
  induction acc with
  | nil => simp [bucketAdd]
  | cons kv rest ih =>
    obtain ⟨k, v⟩ := kv
    simp only [List.map_cons, List.nodup_cons] at h
    by_cases hk : k = sig
    · subst hk
      have hb : bucketAdd ((k, v) :: rest) k d = (k, v ++ [d]) :: rest := by
        simp [bucketAdd]
      rw [hb]
      simp only [List.map_cons, List.nodup_cons]
      exact ⟨h.1, h.2⟩
    · have hb : bucketAdd ((k, v) :: rest) sig d =
          (k, v) :: bucketAdd rest sig d := by
        simp [bucketAdd, hk]
      rw [hb]
      simp only [List.map_cons, List.nodup_cons]
      refine ⟨fun hcon => ?_, ih h.2⟩
      rcases bucketAdd_keys_mem rest sig d k hcon with h2 | h2
      · exact h.1 h2
      · exact hk h2

/-- The grouping loop keeps the dict's keys duplicate-free. -/
theorem groupAux_keys_nodup : ∀ (decls : List Decl)
    (acc bySig : List (String × List Decl)),
    (acc.map Prod.fst).Nodup → groupAux acc decls = .ok bySig →
    (bySig.map Prod.fst).Nodup := by
  intro decls
  induction decls with
  | nil =>
    intro acc bySig hacc h
    rw [← Except.ok.inj h]
    exact hacc
  | cons d ds ih =>
    intro acc bySig hacc h
    cases hsig : signature_of d with
    | error e =>
      simp only [groupAux, hsig, error_bind] at h
      exact Except.noConfusion h
    | ok sig =>
      simp only [groupAux, hsig, ok_bind] at h
      exact ih _ _ (bucketAdd_keys_nodup acc sig d hacc) h

/-- In a dict with duplicate-free keys, lookup of a member entry's key
returns its bucket. -/
theorem dictGetD_of_mem_nodup (bySig : List (String × List Decl))
    (k : String) (l : List Decl) (hnd : (bySig.map Prod.fst).Nodup)
    (hmem : (k, l) ∈ bySig) : dictGetD bySig k = l := by
  induction bySig with
  | nil => cases hmem
  | cons kv rest ih =>
    simp only [List.map_cons, List.nodup_cons] at hnd
    rcases List.mem_cons.mp hmem with heq | hrest
    · rw [← heq]
      have hfind : List.find? (fun p => p.1 == k) ((k, l) :: rest) =
          some (k, l) := List.find?_cons_of_pos _ (by simp)
      simp [dictGetD, hfind]
    · have hne : kv.1 ≠ k := fun hcon =>
        hnd.1 (hcon ▸ List.mem_map_of_mem Prod.fst hrest)
      have hfind : List.find? (fun p => p.1 == k) (kv :: rest) =
          List.find? (fun p => p.1 == k) rest :=
        List.find?_cons_of_neg _ (by simp [hne])
      have hstep : dictGetD (kv :: rest) k = dictGetD rest k := by
        simp [dictGetD, hfind]
      rw [hstep]
      exact ih hnd.2 hrest

/-- Claim C2, counterexample: bucketing is keyed on the formatted signature
STRING, not on the (base name, simple-type sequence) pair.  Declarations
`f(A, B)` — one argument of simple type `"A, B"` — and `f(A, B)` — two
arguments of simple types `"A"`, `"B"` — have different ordered simple-type
sequences yet the grouper places both in one bucket, so "same bucket iff
same base name and same ordered simple-type sequence" fails. -/
theorem claim2_counterexample :
    group_declarations_by_signature [groupCollide1, groupCollide2] =
      .ok [("f(A, B)", [groupCollide1, groupCollide2])] ∧
    argSimpleTypes groupCollide1 ≠ argSimpleTypes groupCollide2 :=
  ⟨rfl, by decide⟩

/-- Claim C2 as amended: (1) two declarations land in a common bucket of the
grouper's dict exactly when both are in the declaration pool and their
formatted signature strings `base_name(type1, type2, ...)` coincide;
(2) equal base name and equal ordered simple-type sequence always give the
same signature string (so the same bucket); (3) conversely, equal signature
strings force equal base name and equal simple-type sequence provided no
base name contains `'('` and every simple type is non-empty and comma-free
(the counterexample embeds `", "` in one simple type); (4) argument names
and default values never affect the signature string — only the declared
name, the in-place flag and the stored simple types enter it. -/
theorem claim2_signature_grouping :
    (∀ (aten_decls : List Decl) (bySig : List (String × List Decl))
        (d1 d2 : Decl) (s1 s2 : String),
        group_declarations_by_signature aten_decls = .ok bySig →
        signature_of d1 = .ok s1 → signature_of d2 = .ok s2 →
        ((∃ k l, (k, l) ∈ bySig ∧ d1 ∈ l ∧ d2 ∈ l) ↔
          (d1 ∈ aten_decls ∧ d2 ∈ aten_decls ∧ s1 = s2))) ∧
    (∀ d1 d2 : Decl,
        (∀ a ∈ d1.arguments, a.simple_type.isSome) →
        (∀ a ∈ d2.arguments, a.simple_type.isSome) →
        grouper_base_name d1 = grouper_base_name d2 →
        argSimpleTypes d1 = argSimpleTypes d2 →
        signature_of d1 = signature_of d2) ∧
    (∀ d1 d2 : Decl,
        (∀ a ∈ d1.arguments, a.simple_type.isSome) →
        (∀ a ∈ d2.arguments, a.simple_type.isSome) →
        (∀ c ∈ (grouper_base_name d1).toList, c ≠ '(') →
        (∀ c ∈ (grouper_base_name d2).toList, c ≠ '(') →
        (∀ s ∈ argSimpleTypes d1, s ≠ "" ∧ ∀ c ∈ s.toList, c ≠ ',') →
        (∀ s ∈ argSimpleTypes d2, s ≠ "" ∧ ∀ c ∈ s.toList, c ≠ ',') →
        signature_of d1 = signature_of d2 →
        grouper_base_name d1 = grouper_base_name d2 ∧
          argSimpleTypes d1 = argSimpleTypes d2) ∧
    (∀ d1 d2 : Decl, d1.name = d2.name → d1.inplace = d2.inplace →
        d1.arguments.map Argument.simple_type =
          d2.arguments.map Argument.simple_type →
        signature_of d1 = signature_of d2) := by
  refine ⟨?_, ?_, ?_, ?_⟩
  · intro aten_decls bySig d1 d2 s1 s2 hg hs1 hs2
    have hnodup : (bySig.map Prod.fst).Nodup :=
      groupAux_keys_nodup aten_decls [] bySig (by simp) hg
    have hfilter : ∀ s, dictGetD bySig s =
        aten_decls.filter (fun d => decide (signature_of d = .ok s)) := by
      intro s
      have h := groupAux_getD aten_decls [] bySig s hg
      simpa [dictGetD] using h
    constructor
    · rintro ⟨k, l, hkl, hd1, hd2⟩
      have hl : dictGetD bySig k = l := dictGetD_of_mem_nodup bySig k l hnodup hkl
      rw [hfilter k] at hl
      rw [← hl] at hd1 hd2
      have m1 := List.mem_filter.mp hd1
      have m2 := List.mem_filter.mp hd2
      have e1 : signature_of d1 = .ok k := of_decide_eq_true m1.2
      have e2 : signature_of d2 = .ok k := of_decide_eq_true m2.2
      refine ⟨m1.1, m2.1, ?_⟩
      have k1 : s1 = k := Except.ok.inj (hs1.symm.trans e1)
      have k2 : s2 = k := Except.ok.inj (hs2.symm.trans e2)
      rw [k1, k2]
    · rintro ⟨hd1, hd2, hss⟩
      refine ⟨s1, dictGetD bySig s1, ?_, ?_, ?_⟩
      · cases hf : bySig.find? (fun p => p.1 == s1) with
        | none =>
          exfalso
          have hnil : dictGetD bySig s1 = [] := by simp [dictGetD, hf]
          rw [hfilter s1] at hnil
          have hin : d1 ∈ aten_decls.filter
              (fun d => decide (signature_of d = .ok s1)) :=
            List.mem_filter.mpr ⟨hd1, decide_eq_true hs1⟩
          rw [hnil] at hin
          cases hin
        | some p =>
          have hp1 : p.1 = s1 := by
            have h := List.find?_some hf
            simpa using h
          have hpm := List.mem_of_find?_eq_some hf
          have hval : dictGetD bySig s1 = p.2 := by simp [dictGetD, hf]
          rw [hval, ← hp1]
          exact hpm
      · rw [hfilter s1]
        exact List.mem_filter.mpr ⟨hd1, decide_eq_true hs1⟩
      · rw [hfilter s1]
        exact List.mem_filter.mpr ⟨hd2, decide_eq_true (by rw [hss]; exact hs2)⟩
  · intro d1 d2 h1 h2 hbase htypes
    rw [signature_of_enriched d1 h1, signature_of_enriched d2 h2, hbase, htypes]
  · intro d1 d2 h1 h2 hb1 hb2 ht1 ht2 heq
    rw [signature_of_enriched d1 h1, signature_of_enriched d2 h2] at heq
    have hstr := Except.ok.inj heq
    have hlist := congrArg String.toList hstr
    simp only [toList_append, List.append_assoc,
      show "(".toList = ['('] from rfl, show ")".toList = [')'] from rfl,
      List.singleton_append, List.cons_append, List.nil_append] at hlist
    have hpa : ∀ c ∈ (grouper_base_name d1).toList, (c != '(') = true :=
      fun c hc => by
        simp only [bne_iff_ne, ne_eq]
        exact hb1 c hc
    have hpb : ∀ c ∈ (grouper_base_name d2).toList, (c != '(') = true :=
      fun c hc => by
        simp only [bne_iff_ne, ne_eq]
        exact hb2 c hc
    have htw := congrArg (List.takeWhile (fun c => c != '(')) hlist
    rw [takeWhile_append_all (fun c => c != '(') (grouper_base_name d1).toList
        '(' ((joinSep ", " (argSimpleTypes d1)).toList ++ [')']) hpa (by decide),
      takeWhile_append_all (fun c => c != '(') (grouper_base_name d2).toList
        '(' ((joinSep ", " (argSimpleTypes d2)).toList ++ [')']) hpb
        (by decide)] at htw
    have hdw := congrArg (List.dropWhile (fun c => c != '(')) hlist
    rw [dropWhile_append_all (fun c => c != '(') (grouper_base_name d1).toList
        '(' ((joinSep ", " (argSimpleTypes d1)).toList ++ [')']) hpa (by decide),
      dropWhile_append_all (fun c => c != '(') (grouper_base_name d2).toList
        '(' ((joinSep ", " (argSimpleTypes d2)).toList ++ [')']) hpb
        (by decide)] at hdw
    have hJr : (joinSep ", " (argSimpleTypes d1)).toList ++ [')'] =
        (joinSep ", " (argSimpleTypes d2)).toList ++ [')'] := by
      injection hdw
    have hJ := List.append_cancel_right hJr
    exact ⟨toList_injective _ _ htw,
      joinSep_comma_inj _ _ ht1 ht2 (toList_injective _ _ hJ)⟩
  · intro d1 d2 hname hinp hmap
    have hbase : grouper_base_name d1 = grouper_base_name d2 := by
      simp [grouper_base_name, hname, hinp]
    have hmapM : d1.arguments.mapM argSimpleType = d2.arguments.mapM argSimpleType := by
      clear hname hinp hbase
      generalize d1.arguments = l1 at hmap ⊢
      generalize d2.arguments = l2 at hmap ⊢
      induction l1 generalizing l2 with
      | nil =>
        cases l2 with
        | nil => rfl
        | cons b bs => simp at hmap
      | cons a as ih =>
        cases l2 with
        | nil => simp at hmap
        | cons b bs =>
          simp only [List.map_cons, List.cons.injEq] at hmap
          rw [List.mapM_cons, List.mapM_cons, ih bs hmap.2]
          simp [argSimpleType, hmap.1]
    unfold signature_of
    rw [hmapM]
    simp only [hbase]

/-- Claim C2, witness: the amended grouping facts at concrete declarations —
the two colliding `f` declarations share the one bucket of their pool's
dict; `groupCollide2` and its renamed-arguments mate `groupRenamed` get the
same signature both via equal components and via name/default independence,
and equal signatures force equal components for them. -/
theorem claim2_signature_grouping_witness :
    (∃ k l, (k, l) ∈ [("f(A, B)", [groupCollide1, groupCollide2])] ∧
      groupCollide1 ∈ l ∧ groupCollide2 ∈ l) ∧
    signature_of groupCollide2 = signature_of groupRenamed ∧
    (grouper_base_name groupCollide2 = grouper_base_name groupRenamed ∧
      argSimpleTypes groupCollide2 = argSimpleTypes groupRenamed) ∧
    signature_of groupRenamed = signature_of groupCollide2 := by
  have h := claim2_signature_grouping
  refine ⟨?_, ?_, ?_, ?_⟩
  · exact (h.1 [groupCollide1, groupCollide2]
      [("f(A, B)", [groupCollide1, groupCollide2])]
      groupCollide1 groupCollide2 "f(A, B)" "f(A, B)" rfl rfl rfl).mpr
      ⟨by decide, by decide, rfl⟩
  · exact h.2.1 groupCollide2 groupRenamed (by decide) (by decide) rfl rfl
  · exact h.2.2.1 groupCollide2 groupRenamed (by decide) (by decide)
      (by decide) (by decide) (by decide) (by decide) rfl
  · exact h.2.2.2 groupRenamed groupCollide2 rfl rfl rfl
